import Mathlib

/-!
# GWProperty — verification of the normalization and query layer

Shallow embedding of the JavaScript source of the GWProperty repository
(`src/components/ListingsApp.jsx`, `src/components/ListingApp.jsx` and the
Leaflet map component with the `MAX_MARKERS` cap), together with proofs
settling the frozen claims about the specification.

Modelling conventions:
* JavaScript primitive values are modelled by `JsPrim`; JSON feeds only
  produce null / boolean / number / string / array / object, and the fields
  the code reads are modelled at the type each call site can observe.
* JavaScript numbers are modelled by exact rationals `ℚ`.  All concrete
  inputs appearing in theorems are small decimal literals whose IEEE-754
  double images are exact or round to the same integers, so no claim below
  depends on double rounding or overflow.
* `parseFloat`, `trim`, `toUpperCase`/`toLowerCase` and the two regular
  expressions of the source are modelled character-exactly on ASCII (the
  only alphabet the grammars accept); `localeCompare` is modelled as
  code-point lexicographic comparison, which is all the claims use of it
  (a deterministic total order).
-/

namespace GWProperty

/-- A JavaScript primitive value, as produced by a JSON feed for a scalar
field (`latitude`, `sales_status`, `starting_price`, …). -/
inductive JsPrim where
  | undef
  | jsNull
  | bool (b : Bool)
  | num (q : ℚ)
  | nan
  | str (s : String)
deriving Repr, DecidableEq

/-- JS truthiness (`!!v`) of a primitive value. -/
def JsPrim.truthy : JsPrim → Bool
  | .undef => false
  | .jsNull => false
  | .bool b => b
  | .num q => decide (q ≠ 0)
  | .nan => false
  | .str s => s != ""

/-- `v == null` (loose equality), true exactly for `null` and `undefined`. -/
def JsPrim.isNullish : JsPrim → Bool
  | .undef => true
  | .jsNull => true
  | _ => false

/-- `String(v)` on a primitive value.  JS prints doubles with the shortest
round-trip decimal; the model prints integers exactly (the only case the
development evaluates) and falls back to the rational printer otherwise. -/
def jsToString : JsPrim → String
  | .undef => "undefined"
  | .jsNull => "null"
  | .bool b => if b then "true" else "false"
  | .num q => if q.den = 1 then toString q.num else toString q
  | .nan => "NaN"
  | .str s => s

/-- The characters matched by the regex class `\s` and removed by
`String.prototype.trim` (ASCII part: TAB LF VT FF CR SPACE, plus NBSP). -/
def isJsWs (c : Char) : Bool :=
  c.toNat == 9 || c.toNat == 10 || c.toNat == 11 || c.toNat == 12 ||
  c.toNat == 13 || c.toNat == 32 || c.toNat == 160

/-- The regex class `\d`, i.e. the ASCII digits. -/
def isDig (c : Char) : Bool := 48 ≤ c.toNat && c.toNat ≤ 57

/-- A character of the regex class `[\d.]` (digits and the decimal point). -/
def isNumDot (c : Char) : Bool := isDig c || c == '.'

/-- `String.prototype.trim` on the character list of a string. -/
def trimL (l : List Char) : List Char :=
  ((l.dropWhile isJsWs).reverse.dropWhile isJsWs).reverse

/-- `toUpperCase`, restricted to ASCII (the grammars below only distinguish
ASCII letters; non-ASCII case mapping never changes whether they match). -/
def jsUpper (c : Char) : Char :=
  if 97 ≤ c.toNat && c.toNat ≤ 122 then Char.ofNat (c.toNat - 32) else c

/-- `toLowerCase`, restricted to ASCII. -/
def jsLower (c : Char) : Char :=
  if 65 ≤ c.toNat && c.toNat ≤ 90 then Char.ofNat (c.toNat + 32) else c

/-- `s.toUpperCase()` on character lists. -/
def upperL (l : List Char) : List Char := l.map jsUpper

/-- `s.toLowerCase()` on a string. -/
def lowerS (s : String) : String := String.mk (s.data.map jsLower)

/-- `s.trim()` on a string. -/
def trimS (s : String) : String := String.mk (trimL s.data)

/-- Numeric value of a list of ASCII digits (`parseInt(·, 10)` on an
all-digit string, and the integer part/fraction digits of `parseFloat`). -/
def digitsVal (l : List Char) : ℕ :=
  l.foldl (fun a c => 10 * a + (c.toNat - 48)) 0

/-- The optional sign at the front of a `parseFloat` input. -/
def stripSign (l : List Char) : ℚ × List Char :=
  match l with
  | c :: r => if c = '-' then (-1, r) else if c = '+' then (1, r) else (1, l)
  | [] => (1, [])

/-- Fraction digits of a `parseFloat` mantissa: after the integer digits,
a fraction is consumed only when a `'.'` follows. -/
def fracPart (l₁ : List Char) : List Char :=
  if l₁.head? = some '.' then l₁.tail.takeWhile isDig else []

/-- What remains of the input after the mantissa (integer digits, optional
point, fraction digits) has been consumed. -/
def fracRest (l₁ : List Char) : List Char :=
  if l₁.head? = some '.' then l₁.tail.dropWhile isDig else l₁

/-- The decimal-mantissa part of `parseFloat`: longest prefix of shape
`digits`, `digits.digits`, `.digits` or `digits.`; returns its exact value
and the unconsumed remainder, or `none` when the prefix holds no digit
(JS `NaN`). -/
def parseDecCore (l : List Char) : Option (ℚ × List Char) :=
  let ip := l.takeWhile isDig
  let l₁ := l.dropWhile isDig
  if ip.isEmpty && (fracPart l₁).isEmpty then none
  else
    some ((digitsVal ip : ℚ) + (digitsVal (fracPart l₁) : ℚ) / 10 ^ (fracPart l₁).length,
      fracRest l₁)

/-- The exponent part of `parseFloat` (`e`/`E`, optional sign, digits);
an absent or malformed exponent contributes `0`, as in JS where the
longest valid prefix wins. -/
def parseExpPart (l : List Char) : ℤ :=
  match l with
  | c :: r =>
    if c = 'e' || c = 'E' then
      match r with
      | d :: r₂ =>
        if d = '-' then
          let ed := r₂.takeWhile isDig
          if ed.isEmpty then 0 else -(digitsVal ed : ℤ)
        else if d = '+' then
          let ed := r₂.takeWhile isDig
          if ed.isEmpty then 0 else (digitsVal ed : ℤ)
        else
          let ed := r.takeWhile isDig
          if ed.isEmpty then 0 else (digitsVal ed : ℤ)
      | [] => 0
    else 0
  | [] => 0

/-- `parseFloat` on a character list, merged with the caller-side
`Number.isFinite` guard every call site of the source applies: `none`
stands for `NaN` as well as for `±Infinity`.  (Exact rationals: a finite
decimal literal never overflows in the model; see the header note.) -/
def jsParseFloatL (l : List Char) : Option ℚ :=
  let l₀ := l.dropWhile isJsWs
  let sg := (stripSign l₀).1
  let l₁ := (stripSign l₀).2
  if l₁.take 8 = "Infinity".data then none
  else
    match parseDecCore l₁ with
    | none => none
    | some (m, rest) => some (sg * m * 10 ^ parseExpPart rest)

/-- `parseFloat` on a string (plus the `Number.isFinite` guard). -/
def jsParseFloat (s : String) : Option ℚ := jsParseFloatL s.data

/-- `toFloat` from ListingsApp.jsx:
`v == null ? null : (Number.isFinite(parseFloat(String(v))) ? parseFloat(String(v)) : null)`.
The composite `parseFloat(String(v))` is evaluated case by case on primitive
values: a finite number survives the round trip through its decimal text;
`"NaN"`, `"true"`, `"false"` parse to `NaN`. -/
def toFloat : JsPrim → Option ℚ
  | .undef => none
  | .jsNull => none
  | .bool _ => none
  | .num q => some q
  | .nan => none
  | .str s => jsParseFloat s

/-- `Math.round`: round half toward `+∞`. -/
def jsRound (q : ℚ) : ℤ := Int.floor (q + 1 / 2)

/-- `parsePriceAED` from ListingsApp.jsx / ListingApp.jsx:
reject falsy or non-string input, trim and upper-case, match
`/^([\d.]+)\s*([MK])$/` (the spans are maximal runs — the character classes
are pairwise disjoint, so this is exactly the regex semantics), then
`parseFloat` the numeric token, scale by 1 000 000 (`M`) or 1 000 (`K`)
and `Math.round`. -/
def parsePriceAED (v : JsPrim) : Option ℤ :=
  match v with
  | .str s =>
    if s = "" then none
    else
      let t := upperL (trimL s.data)
      let tok := t.takeWhile isNumDot
      let r₁ := t.dropWhile isNumDot
      let r₂ := r₁.dropWhile isJsWs
      if tok.isEmpty then none
      else
        match r₂ with
        | [c] =>
          if c = 'M' ∨ c = 'K' then
            match jsParseFloatL tok with
            | none => none
            | some q => some (jsRound (q * (if c = 'M' then 1000000 else 1000)))
          else none
        | _ => none
  | _ => none

/-- Modelled from the claim C1 as stated (spec §4.2, §8): the value of a
price token under the claim's grammar — digits with at most one decimal
point — read as a decimal literal.  Shared by the amended form, where it is
the longest decimal prefix `digits [. digits]` of the token, absent when
that prefix contains no digit (`parseFloat`'s reading of such a token). -/
def decPrefix (l : List Char) : Option ℚ :=
  let ip := l.takeWhile isDig
  let fp := fracPart (l.dropWhile isDig)
  if ip.isEmpty && fp.isEmpty then none
  else some ((digitsVal ip : ℚ) + (digitsVal fp : ℚ) / 10 ^ fp.length)

/-- Modelled from claim C1 as stated: accept only a numeric literal made of
digits with at most one decimal point (and at least one digit), then
optional whitespace and a single letter `M`/`K` (case-insensitivity via
upper-casing, as the claim allows); everything else is absent. -/
def specPriceStrict (v : JsPrim) : Option ℤ :=
  match v with
  | .str s =>
    let t := upperL (trimL s.data)
    let tok := t.takeWhile isNumDot
    let r₂ := (t.dropWhile isNumDot).dropWhile isJsWs
    if tok.isEmpty || 1 < tok.count '.' || !tok.any isDig then none
    else
      match r₂ with
      | [c] =>
        if c = 'M' ∨ c = 'K' then
          match decPrefix tok with
          | none => none
          | some q => some (jsRound (q * (if c = 'M' then 1000000 else 1000)))
        else none
      | _ => none
  | _ => none

/-- Claim C1 amended: as stated, except that the numeric token may be any
nonempty run of digits and decimal points, and its value is the longest
decimal prefix (absent when that prefix has no digit), as `parseFloat`
reads it. -/
def specPriceAmended (v : JsPrim) : Option ℤ :=
  match v with
  | .str s =>
    let t := upperL (trimL s.data)
    let tok := t.takeWhile isNumDot
    let r₂ := (t.dropWhile isNumDot).dropWhile isJsWs
    if tok.isEmpty then none
    else
      match r₂ with
      | [c] =>
        if c = 'M' ∨ c = 'K' then
          match decPrefix tok with
          | none => none
          | some q => some (jsRound (q * (if c = 'M' then 1000000 else 1000)))
        else none
      | _ => none
  | _ => none

/-- The regex class `[1-4]` (quarter digit). -/
def isQDigit (c : Char) : Bool := 49 ≤ c.toNat && c.toNat ≤ 52

/-- `parseCompletionDateSortable` from ListingsApp.jsx / ListingApp.jsx:
reject falsy or non-string input, trim and upper-case, match
`/^Q([1-4])\s+(\d{4})$/` (the whitespace span is a maximal run — digits are
not whitespace — so this is exactly the regex semantics), and encode as
`year * 10 + quarter`. -/
def parseCompletionDateSortable (v : JsPrim) : Option ℤ :=
  match v with
  | .str s =>
    if s = "" then none
    else
      match upperL (trimL s.data) with
      | c :: q :: rest =>
        if c = 'Q' ∧ isQDigit q = true then
          if (rest.takeWhile isJsWs).isEmpty then none
          else
            match rest.dropWhile isJsWs with
            | [a, b, c₂, d] =>
              if isDig a && isDig b && isDig c₂ && isDig d then
                some ((digitsVal [a, b, c₂, d] : ℤ) * 10 + ((q.toNat - 48 : ℕ) : ℤ))
              else none
            | _ => none
        else none
      | _ => none
  | _ => none

/-- Modelled from claim C2 as stated: grammar `Q<1-4> <4-digit year>`,
case-insensitively (via upper-casing), with a single space separator after
trimming; everything else is absent. -/
def specCompletionStrict (v : JsPrim) : Option ℤ :=
  match v with
  | .str s =>
    match upperL (trimL s.data) with
    | c :: q :: sp :: rest =>
      if c = 'Q' ∧ isQDigit q = true ∧ sp = ' ' then
        match rest with
        | [a, b, c₂, d] =>
          if isDig a && isDig b && isDig c₂ && isDig d then
            some ((digitsVal [a, b, c₂, d] : ℤ) * 10 + ((q.toNat - 48 : ℕ) : ℤ))
          else none
        | _ => none
      else none
    | _ => none
  | _ => none

/-- Claim C2 amended: as stated, except that the separator is one or more
whitespace characters rather than exactly one space. -/
def specCompletionAmended (v : JsPrim) : Option ℤ :=
  match v with
  | .str s =>
    match upperL (trimL s.data) with
    | c :: q :: rest =>
      if c = 'Q' ∧ isQDigit q = true ∧ ¬(rest.takeWhile isJsWs).isEmpty = true then
        match rest.dropWhile isJsWs with
        | [a, b, c₂, d] =>
          if isDig a && isDig b && isDig c₂ && isDig d then
            some ((digitsVal [a, b, c₂, d] : ℤ) * 10 + ((q.toNat - 48 : ℕ) : ℤ))
          else none
        | _ => none
      else none
    | _ => none
  | _ => none

/-- `localeCompare`, modelled as code-point lexicographic comparison of the
two character lists (see the header note); returns a value in {-1, 0, 1}. -/
def charListCmp : List Char → List Char → ℤ
  | [], [] => 0
  | [], _ :: _ => -1
  | _ :: _, [] => 1
  | a :: as, b :: bs =>
    if a.toNat < b.toNat then -1
    else if b.toNat < a.toNat then 1
    else charListCmp as bs

/-- `a.localeCompare(b)` on strings. -/
def strCmp (s t : String) : ℤ := charListCmp s.data t.data

/-- JS `x || y` on comparator results: keep `x` unless it is `0`. -/
def jsOr (x y : ℤ) : ℤ := if x = 0 then y else x

/-- `Array.prototype.sort(cmp)`: stable (ES2019+); for a consistent
comparator — every comparator in this file induces a total preorder — any
stable sort produces the same, unique output, modelled by `mergeSort` on
`cmp a b ≤ 0`. -/
def jsSort {α : Type} (cmp : α → α → ℤ) (l : List α) : List α :=
  l.mergeSort fun a b => decide (cmp a b ≤ 0)

/-- Iteration order of `new Set(arr)`: first occurrences, in order. -/
def dedupFirstAux : List String → List String → List String
  | [], _ => []
  | a :: r, seen =>
    if a ∈ seen then dedupFirstAux r seen else a :: dedupFirstAux r (a :: seen)

/-- `uniq` from ListingsApp.jsx / ListingApp.jsx:
`Array.from(new Set(arr)).filter(Boolean).sort((a, b) => a.localeCompare(b))`. -/
def uniq (arr : List String) : List String :=
  jsSort strCmp (((dedupFirstAux arr []).filter (fun s => s != "")))

/-- One entry of `unit_variations` with a string-or-absent type label: the
domain of the label-pipeline claims (C6), whose text speaks of unit-type
*labels*.  A missing field — or a non-object array entry, which `uv?.x`
also turns into `undefined` — is `none`; `starting_price` is any
primitive.  This record does NOT cover wrong-typed (non-string, truthy)
labels, on which the real `normalizeProject` can throw a `TypeError`
inside `uniq`'s sort comparator; that behaviour is modelled in full by
`JsUnitVar` / `RawJs` / `normalizeProjectJs` below (see claim C4). -/
structure UnitVar where
  unit_type : Option String := none
  starting_price : JsPrim := .undef
deriving Repr, DecidableEq

/-- A raw feed record: the fields `normalizeProject` reads.  A missing or
null field is `none`/`JsPrim.undef`/`JsPrim.jsNull`.  The purely string-ish
fields (`name`, `community`, `developer`, `image`, `completion_date`) are
modelled as absent-or-string, the shapes the feed and every claim use; the
fields whose typing the claims quantify over (`latitude`, `longitude`,
`sales_status`, `featured`, `id`, `starting_price`) are full primitives,
and `unit_variations` is an array-or-anything (`none` = any non-array). -/
structure Raw where
  id : JsPrim := .undef
  name : Option String := none
  community : Option String := none
  developer : Option String := none
  image : Option String := none
  latitude : JsPrim := .undef
  longitude : JsPrim := .undef
  completion_date : Option String := none
  sales_status : JsPrim := .undef
  featured : JsPrim := .undef
  unit_variations : Option (List UnitVar) := none
deriving Repr, DecidableEq

/-- The raw record with every field absent: the empty object `{}`. -/
def emptyRaw : Raw := {}

/-- The normalized UI listing produced by `normalizeProject`. -/
structure Listing where
  id : String
  title : String
  community : String
  developer : String
  coverImage : String
  lat : Option ℚ
  lng : Option ℚ
  hasPin : Bool
  completionDate : String
  salesStatusCode : JsPrim
  statusLabel : String
  minPrice : Option ℤ
  featured : Bool
  unitTypesLabel : String
  raw : Raw
deriving Repr, DecidableEq

/-- `cleanUrl` from ListingsApp.jsx, catch branch:
`String(u).trim().replaceAll(" ", "%20")`.  The try branch (WHATWG URL
normalization of well-formed absolute URLs) is not modelled — no claim
depends on `coverImage` — so the model always takes the catch branch. -/
def cleanUrl (u : String) : String :=
  if u = "" then ""
  else String.mk ((trimL u.data).flatMap fun c => if c = ' ' then "%20".data else [c])

/-- `isFiniteNum` from the source: `typeof n === "number" &&
Number.isFinite(n)`.  In the model a coordinate is a finite number or
null, so this is exactly `isSome`. -/
def isFiniteNum (o : Option ℚ) : Bool := o.isSome

/-- `salesStatusLabel` from the source: the `{1: "Status 1", …, 4:
"Status 4"}` lookup — a JS property access coerces the key through
`String(code)` — then `?? (code == null ? "Unknown" : ` `Status ${code}` `)`. -/
def salesStatusLabel (code : JsPrim) : String :=
  let key := jsToString code
  if key = "1" then "Status 1"
  else if key = "2" then "Status 2"
  else if key = "3" then "Status 3"
  else if key = "4" then "Status 4"
  else if code.isNullish then "Unknown"
  else "Status " ++ key

/-- `isLikelyFeatured` from the source: `!!p.image`, `!!(p.latitude &&
p.longitude)` (truthiness of both raw coordinates), and a nonempty
`unit_variations` array. -/
def isLikelyFeatured (p : Raw) : Bool :=
  let hasImage := match p.image with | some s => s != "" | none => false
  let hasPin := p.latitude.truthy && p.longitude.truthy
  let hasUnits := match p.unit_variations with
    | some l => decide (0 < l.length)
    | none => false
  hasImage && hasPin && hasUnits

/-- `summarizeUnitTypes` from the source: empty unless a nonempty array;
`uniq` of the truthy type labels; join up to 3 with `" • "`, else first 3
plus `"+N"`. -/
def summarizeUnitTypes (uvs : Option (List UnitVar)) : String :=
  match uvs with
  | none => ""
  | some l =>
    if l.length = 0 then ""
    else
      let types := uniq ((l.filterMap (fun uv => uv.unit_type)).filter (fun s => s != ""))
      if types.length = 0 then ""
      else if types.length ≤ 3 then " • ".intercalate types
      else " • ".intercalate (types.take 3) ++ " • +" ++ toString (types.length - 3)

/-- `computeMinPriceFromUnitVariations` from the source: parse every
variation's `starting_price`, keep the finite ones, return their minimum
(`Math.min(...prices)`) or null when none parse or the field is not an
array. -/
def computeMinPriceFromUnitVariations (uvs : Option (List UnitVar)) : Option ℤ :=
  match uvs with
  | none => none
  | some l =>
    match l.filterMap (fun uv => parsePriceAED uv.starting_price) with
    | [] => none
    | h :: t => some (t.foldl min h)

/-- `normalizeProject` from ListingsApp.jsx (ListingApp.jsx differs only in
using `p.image ?? ""` instead of `cleanUrl`, which no claim touches). -/
def normalizeProject (p : Raw) : Listing :=
  let lat := toFloat p.latitude
  let lng := toFloat p.longitude
  let minPrice := computeMinPriceFromUnitVariations p.unit_variations
  let featured := p.featured.truthy || isLikelyFeatured p
  let unitTypesLabel := summarizeUnitTypes p.unit_variations
  { id := if p.id.isNullish then "" else jsToString p.id
    title := p.name.getD "Untitled"
    community := p.community.getD ""
    developer := p.developer.getD ""
    coverImage := cleanUrl (p.image.getD "")
    lat := lat
    lng := lng
    hasPin := isFiniteNum lat && isFiniteNum lng
    completionDate := p.completion_date.getD ""
    salesStatusCode := p.sales_status
    statusLabel := salesStatusLabel p.sales_status
    minPrice := minPrice
    featured := featured
    unitTypesLabel := unitTypesLabel
    raw := p }

/-- Whether a JS primitive value is a string (has the `localeCompare`
method). -/
def JsPrim.isStr : JsPrim → Bool
  | .str _ => true
  | _ => false

/-- One entry of `unit_variations` with its `unit_type` at full primitive
generality — the wrong-typed-label shapes the totality claim C4 quantifies
over and `UnitVar` excludes. -/
structure JsUnitVar where
  unit_type : JsPrim := .undef
  starting_price : JsPrim := .undef
deriving Repr, DecidableEq

/-- A raw feed record whose unit variations carry full-primitive type
labels; the other fields are as in `Raw`. -/
structure RawJs where
  id : JsPrim := .undef
  name : Option String := none
  community : Option String := none
  developer : Option String := none
  image : Option String := none
  latitude : JsPrim := .undef
  longitude : JsPrim := .undef
  completion_date : Option String := none
  sales_status : JsPrim := .undef
  featured : JsPrim := .undef
  unit_variations : Option (List JsUnitVar) := none
deriving Repr, DecidableEq

/-- Projection keeping the string labels and dropping the rest: used only
to populate the inert `raw` passthrough field of `Listing` (retained for
traceability, read by no claim and no UI logic). -/
def JsUnitVar.toUnitVar (uv : JsUnitVar) : UnitVar :=
  { unit_type := match uv.unit_type with | .str s => some s | _ => none
    starting_price := uv.starting_price }

/-- Projection of a full-primitive record onto `Raw` (only for the inert
`raw` passthrough field; see `JsUnitVar.toUnitVar`). -/
def RawJs.toRaw (p : RawJs) : Raw :=
  { id := p.id
    name := p.name
    community := p.community
    developer := p.developer
    image := p.image
    latitude := p.latitude
    longitude := p.longitude
    completion_date := p.completion_date
    sales_status := p.sales_status
    featured := p.featured
    unit_variations := p.unit_variations.map (List.map JsUnitVar.toUnitVar) }

/-- Iteration order of `new Set(arr)` over raw JS values: first
occurrences, in order.  (`Set` uses SameValueZero equality, which on the
primitives of `JsPrim` coincides with structural equality: `NaN` is equal
to itself, and the model has a single zero.) -/
def dedupJsAux : List JsPrim → List JsPrim → List JsPrim
  | [], _ => []
  | a :: r, seen =>
    if a ∈ seen then dedupJsAux r seen else a :: dedupJsAux r (a :: seen)

/-- `uniq` applied to raw JS values, exceptions included:
`Array.from(new Set(arr)).filter(Boolean).sort((a, b) => a.localeCompare(b))`.
With at most one survivor the comparator is never invoked.  With two or
more, a conforming engine must invoke it, and `localeCompare` exists only
on strings: if every survivor is a non-string — the case the C4 evidence
uses — every possible comparator call has a non-string receiver and the
`TypeError` is forced; when strings and non-strings are mixed, ECMAScript
leaves the probe order (hence whether a non-string becomes the receiver)
to the engine, and the model conservatively takes the throwing branch.
When all survivors are strings the receiver is always a string and the
argument is passed through `String(·)` unchanged. -/
def uniqJs (arr : List JsPrim) : Except String (List JsPrim) :=
  let l := (dedupJsAux arr []).filter JsPrim.truthy
  if l.length ≤ 1 then .ok l
  else if l.all JsPrim.isStr then
    .ok (jsSort (fun a b => strCmp (jsToString a) (jsToString b)) l)
  else .error "TypeError: localeCompare is not a function"

/-- `summarizeUnitTypes` over full-primitive labels, exceptions included;
`types.join(" • ")` coerces each member through `String(·)`. -/
def summarizeUnitTypesJs (uvs : Option (List JsUnitVar)) : Except String String :=
  match uvs with
  | none => .ok ""
  | some l =>
    if l.length = 0 then .ok ""
    else
      match uniqJs ((l.map (fun uv => uv.unit_type)).filter JsPrim.truthy) with
      | .error e => .error e
      | .ok types =>
        if types.length = 0 then .ok ""
        else if types.length ≤ 3 then .ok (" • ".intercalate (types.map jsToString))
        else .ok (" • ".intercalate ((types.take 3).map jsToString) ++ " • +" ++
          toString (types.length - 3))

/-- `computeMinPriceFromUnitVariations` over full-primitive labels (the
label field plays no role here; this is total). -/
def computeMinPriceJs (uvs : Option (List JsUnitVar)) : Option ℤ :=
  match uvs with
  | none => none
  | some l =>
    match l.filterMap (fun uv => parsePriceAED uv.starting_price) with
    | [] => none
    | h :: t => some (t.foldl min h)

/-- `isLikelyFeatured` over full-primitive labels (total). -/
def isLikelyFeaturedJs (p : RawJs) : Bool :=
  let hasImage := match p.image with | some s => s != "" | none => false
  let hasPin := p.latitude.truthy && p.longitude.truthy
  let hasUnits := match p.unit_variations with
    | some l => decide (0 < l.length)
    | none => false
  hasImage && hasPin && hasUnits

/-- `normalizeProject` over full-primitive unit-type labels, exceptions
included: the one fallible step is `summarizeUnitTypes` (through `uniq`'s
sort comparator); `minPrice` and `featured`, computed before it in the
source, are total, so sequencing the single `Except` is faithful.  The
inert `raw` field is stored through `RawJs.toRaw`. -/
def normalizeProjectJs (p : RawJs) : Except String Listing :=
  match summarizeUnitTypesJs p.unit_variations with
  | .error e => .error e
  | .ok unitTypesLabel =>
    let lat := toFloat p.latitude
    let lng := toFloat p.longitude
    .ok { id := if p.id.isNullish then "" else jsToString p.id
          title := p.name.getD "Untitled"
          community := p.community.getD ""
          developer := p.developer.getD ""
          coverImage := cleanUrl (p.image.getD "")
          lat := lat
          lng := lng
          hasPin := isFiniteNum lat && isFiniteNum lng
          completionDate := p.completion_date.getD ""
          salesStatusCode := p.sales_status
          statusLabel := salesStatusLabel p.sales_status
          minPrice := computeMinPriceJs p.unit_variations
          featured := p.featured.truthy || isLikelyFeaturedJs p
          unitTypesLabel := unitTypesLabel
          raw := p.toRaw }

/-- The failing input of claim C4: `{unit_variations: [{unit_type: 1},
{unit_type: 2}]}` — two distinct, truthy, non-string type labels; every
other field absent. -/
def numericLabelsRawJs : RawJs where
  unit_variations := some [{ unit_type := .num 1 }, { unit_type := .num 2 }]

/-- The same record with well-typed (string) labels. -/
def stringLabelsRawJs : RawJs where
  unit_variations := some [{ unit_type := .str "A" }, { unit_type := .str "B" }]

/-- Modelled from claim C6 as stated: the distinct non-empty unit-type
labels ordered by (code-point) string comparison; all of them joined with
`" • "` when at most 3, else the first 3 plus a `"+N"` remainder count;
empty when the list is absent/empty or has no non-empty labels. -/
def specUnitTypesLabel (uvs : Option (List UnitVar)) : String :=
  match uvs with
  | none => ""
  | some l =>
    let ts := jsSort strCmp
      (dedupFirstAux ((l.filterMap (fun uv => uv.unit_type)).filter (fun s => s != "")) [])
    if ts.length = 0 then ""
    else if ts.length ≤ 3 then " • ".intercalate ts
    else " • ".intercalate (ts.take 3) ++ " • +" ++ toString (ts.length - 3)

/-- Modelled from claim C7 as stated: featured iff an explicit truthy
`featured` flag, or all of — non-empty image reference, both coordinates
*present* in raw form (not absent/null, regardless of parseability or
truthiness), and at least one unit variation. -/
def specFeaturedStrict (p : Raw) : Bool :=
  p.featured.truthy ||
    ((match p.image with | some s => s != "" | none => false) &&
      (!p.latitude.isNullish && !p.longitude.isNullish) &&
      (match p.unit_variations with | some l => decide (0 < l.length) | none => false))

/-- Claim C7 amended: both coordinates must be *truthy* raw values (present
and not a falsy value such as the number 0 or the empty string), not merely
present. -/
def specFeaturedAmended (p : Raw) : Bool :=
  p.featured.truthy ||
    ((match p.image with | some s => s != "" | none => false) &&
      (p.latitude.truthy && p.longitude.truthy) &&
      (match p.unit_variations with | some l => decide (0 < l.length) | none => false))

/-- A record with a non-empty image, latitude `0` (present and parseable
but falsy), longitude `10`, and one unit variation. -/
def zeroLatRaw : Raw where
  image := some "img.jpg"
  latitude := .num 0
  longitude := .num 10
  unit_variations := some [{ unit_type := some "Apartment", starting_price := .str "1 M" }]

/-- `nullsLastAsc` from the source.  In the model the sort keys are
integers-or-null (`minPrice` is a rounded integer, the completion key is
`year*10+quarter`), so the `Number.isNaN` disjunct of the source is merged
into `none`. -/
def nullsLastAsc (a b : Option ℤ) : ℤ :=
  match a, b with
  | none, none => 0
  | none, some _ => 1
  | some _, none => -1
  | some x, some y => x - y

/-- `nullsLastDesc` from the source (same null handling, reversed order on
values). -/
def nullsLastDesc (a b : Option ℤ) : ℤ :=
  match a, b with
  | none, none => 0
  | none, some _ => 1
  | some _, none => -1
  | some x, some y => y - x

/-- `sortProjects` from the source: the `switch (sortBy)` comparator.
`(a.title ?? "")` is a no-op in the model because normalized titles are
strings; `||` on comparator results is `jsOr`. -/
def sortProjects (a b : Listing) (sortBy : String) : ℤ :=
  let nameA := lowerS a.title
  let nameB := lowerS b.title
  let compA := parseCompletionDateSortable (.str a.completionDate)
  let compB := parseCompletionDateSortable (.str b.completionDate)
  if sortBy = "price_asc" then jsOr (nullsLastAsc a.minPrice b.minPrice) (strCmp nameA nameB)
  else if sortBy = "price_desc" then jsOr (nullsLastDesc a.minPrice b.minPrice) (strCmp nameA nameB)
  else if sortBy = "completion_asc" then jsOr (nullsLastAsc compA compB) (strCmp nameA nameB)
  else if sortBy = "completion_desc" then jsOr (nullsLastDesc compA compB) (strCmp nameA nameB)
  else if sortBy = "name_desc" then strCmp nameB nameA
  else if sortBy = "name_asc" then strCmp nameA nameB
  else jsOr ((if b.featured then 1 else 0) - (if a.featured then 1 else 0)) (strCmp nameA nameB)

/-- Laws making a JS comparator consistent: antisymmetric sign, and the
strict/weak transitivity a lexicographic composition needs. -/
structure CmpLaws {α : Type} (c : α → α → ℤ) : Prop where
  flip : ∀ a b, c b a = -c a b
  lt_le : ∀ a b d, c a b < 0 → c b d ≤ 0 → c a d < 0
  le_lt : ∀ a b d, c a b ≤ 0 → c b d < 0 → c a d < 0
  zero_trans : ∀ a b d, c a b = 0 → c b d = 0 → c a d = 0

/-- The case-insensitive title key used by every tie-break. -/
def titleKey (a : Listing) : String := lowerS a.title

/-- The parsed completion key of a listing. -/
def completionKey (a : Listing) : Option ℤ :=
  parseCompletionDateSortable (.str a.completionDate)

/-- The order claim C3 states for a nulls-last key sort: a null key never
precedes a non-null key; non-null keys are ordered (ascending or
descending) with ties broken by case-insensitive title ascending, and
null-key listings are themselves in title order. -/
def nullsLastOrdered (key : Listing → Option ℤ) (asc : Bool) (a b : Listing) : Prop :=
  match key a, key b with
  | some x, some y =>
    (if asc then x < y else y < x) ∨ (x = y ∧ strCmp (titleKey a) (titleKey b) ≤ 0)
  | some _, none => True
  | none, some _ => False
  | none, none => strCmp (titleKey a) (titleKey b) ≤ 0

/-- The filter state of the component: `community`, `developer`, `status`
and the free-text query `q`, each a string, empty = no constraint. -/
structure FilterSpec where
  community : String := ""
  developer : String := ""
  status : String := ""
  q : String := ""
deriving Repr, DecidableEq

/-- `h.includes(n)`: `n` occurs as a contiguous substring of `h`. -/
def includesAux (n : List Char) : List Char → Bool
  | [] => n.isEmpty
  | c :: t => n.isPrefixOf (c :: t) || includesAux n t

/-- `String.prototype.includes`. -/
def strIncludes (h n : String) : Bool := includesAux n.data h.data

/-- The search haystack of the `filtered` memo:
`[title, community, developer, statusLabel, completionDate].filter(Boolean).join(" ")`. -/
def hayOf (p : Listing) : String :=
  " ".intercalate
    (([p.title, p.community, p.developer, p.statusLabel, p.completionDate]).filter
      (fun s => s != ""))

/-- The predicate of the `filtered` memo in ListingsApp.jsx: each provided
exact-match filter must equal the listing's field, and a non-empty trimmed
query must occur case-insensitively in the haystack. -/
def passesFilter (f : FilterSpec) (p : Listing) : Bool :=
  let qq := lowerS (trimS f.q)
  if f.community != "" && p.community != f.community then false
  else if f.developer != "" && p.developer != f.developer then false
  else if f.status != "" && p.statusLabel != f.status then false
  else if qq != "" then strIncludes (lowerS (hayOf p)) qq
  else true

/-- The `filtered` memo: filter, then sort with `sortProjects`. -/
def filteredListings (f : FilterSpec) (sortBy : String) (all : List Listing) : List Listing :=
  jsSort (fun a b => sortProjects a b sortBy) (all.filter (passesFilter f))

/-- Modelled from claim C5 as stated: conjunctive exact-match constraints,
and the query must occur in the space-joined concatenation of *all five*
fields — title, community, developer, statusLabel, completionDate —
including the empty ones. -/
def claimPassesStrict (f : FilterSpec) (p : Listing) : Bool :=
  (f.community == "" || p.community == f.community) &&
  (f.developer == "" || p.developer == f.developer) &&
  (f.status == "" || p.statusLabel == f.status) &&
  (lowerS (trimS f.q) == "" ||
    strIncludes
      (lowerS (p.title ++ " " ++ p.community ++ " " ++ p.developer ++ " " ++
        p.statusLabel ++ " " ++ p.completionDate))
      (lowerS (trimS f.q)))

/-- Claim C5 amended: the haystack joins only the *non-empty* fields with
single spaces (empty fields contribute no separator). -/
def claimPassesAmended (f : FilterSpec) (p : Listing) : Bool :=
  (f.community == "" || p.community == f.community) &&
  (f.developer == "" || p.developer == f.developer) &&
  (f.status == "" || p.statusLabel == f.status) &&
  (lowerS (trimS f.q) == "" || strIncludes (lowerS (hayOf p)) (lowerS (trimS f.q)))

/-- `MAX_MARKERS` from the capped MapView component. -/
def MAX_MARKERS : ℕ := 400

/-- The hard-coded Middle-East bounding box of the capped MapView. -/
structure BBox where
  minLat : ℚ
  maxLat : ℚ
  minLng : ℚ
  maxLng : ℚ
deriving Repr, DecidableEq

/-- `MIDDLE_EAST_BBOX` from the capped MapView. -/
def MIDDLE_EAST_BBOX : BBox :=
  { minLat := 12, maxLat := 36.5, minLng := 34, maxLng := 64 }

/-- `isInMiddleEastBBox` from the capped MapView: all four comparisons
inclusive. -/
def isInMiddleEastBBox (lat lng : ℚ) : Bool :=
  decide (MIDDLE_EAST_BBOX.minLat ≤ lat) && decide (lat ≤ MIDDLE_EAST_BBOX.maxLat) &&
    decide (MIDDLE_EAST_BBOX.minLng ≤ lng) && decide (lng ≤ MIDDLE_EAST_BBOX.maxLng)

/-- The pin pipeline of the capped MapView:
`(properties || []).filter(finite coords).filter(isInMiddleEastBBox).slice(0, MAX_MARKERS)`.
The wildcard arm of the second filter is faithful stand-alone too: in JS,
`null >= 12` and every comparison on `NaN` (from `undefined`) is false for
this box's positive bounds. -/
def mapPins (properties : List Listing) : List Listing :=
  (((properties.filter fun p => isFiniteNum p.lat && isFiniteNum p.lng).filter fun p =>
    match p.lat, p.lng with
    | some la, some ln => isInMiddleEastBBox la ln
    | _, _ => false)).take MAX_MARKERS

/-- Modelled from claim C8 as stated: the pins are exactly the first
`MAX_MARKERS` *geolocated* listings in the given order. -/
def claimMapPins (properties : List Listing) : List Listing :=
  (properties.filter fun p => isFiniteNum p.lat && isFiniteNum p.lng).take MAX_MARKERS

/-- A geolocated listing far outside the Middle-East box (about London). -/
def londonListing : Listing :=
  normalizeProject { name := some "London", latitude := .num 52, longitude := .num 0 }

/-- A geolocated listing inside the box (about Dubai). -/
def dubaiListing : Listing :=
  normalizeProject { name := some "Dubai", latitude := .num 25, longitude := .num 55 }

/-- The JSON payload, abstracted to the only path the loader reads:
`payload?.data?.projects` is `some` when the path exists and is an array,
`none` when it is missing or not an array. -/
structure Payload where
  projects : Option (List Raw)

/-- The outcome of one `fetch("/properties.json")` round:
a non-success transport status (`!r.ok`), a body `r.json()` fails to parse
(with the rejection's message), or a parsed payload. -/
inductive FetchOutcome where
  | httpError (status : ℕ)
  | jsonError (msg : String)
  | jsonOk (payload : Payload)

/-- The component state the load effect touches: the catalog `all` and the
`loadError` string (empty = no visible error). -/
structure AppState where
  all : List Listing
  loadError : String

/-- The load effect of ListingsApp.jsx as a state transition:
`!r.ok` throws `HTTP ${status}`; a JSON parse failure rejects with its
message; a missing/non-array `data.projects` throws the `Invalid JSON`
message; the catch handler sets
`loadError = "Could not load properties.json (" + message + ")"` and
touches nothing else; success commits the normalized listings and clears
`loadError`.  (The `cancelled` flag only guards an unmounted component and
is irrelevant to a single completed load.) -/
def loadStep (st : AppState) (r : FetchOutcome) : AppState :=
  match r with
  | .httpError status =>
    { st with loadError := "Could not load properties.json (HTTP " ++ toString status ++ ")" }
  | .jsonError msg =>
    { st with loadError := "Could not load properties.json (" ++ msg ++ ")" }
  | .jsonOk payload =>
    match payload.projects with
    | none =>
      { st with loadError :=
        "Could not load properties.json (Invalid JSON: data.projects is missing or not an array)" }
    | some projects =>
      { all := projects.map normalizeProject, loadError := "" }

lemma isNumDot_toNat {c : Char} (h : isNumDot c = true) :
    (48 ≤ c.toNat ∧ c.toNat ≤ 57) ∨ c.toNat = 46 := by
  simp only [isNumDot, isDig, Bool.or_eq_true, Bool.and_eq_true, beq_iff_eq,
    decide_eq_true_eq] at h
  rcases h with h | h
  · exact Or.inl h
  · subst h; exact Or.inr rfl

lemma isNumDot_not_ws {c : Char} (h : isNumDot c = true) : isJsWs c = false := by
  have := isNumDot_toNat h
  simp only [isJsWs, Bool.or_eq_false_iff, beq_eq_false_iff_ne, ne_eq]
  omega

lemma isNumDot_ne {c : Char} (h : isNumDot c = true) :
    c ≠ '-' ∧ c ≠ '+' ∧ c ≠ 'I' ∧ c ≠ 'e' ∧ c ≠ 'E' := by
  refine ⟨?_, ?_, ?_, ?_, ?_⟩ <;> (intro hc; subst hc; exact absurd h (by decide))

/-- On a token of digits and dots, the decimal-mantissa reading and the
claim-side prefix reading agree. -/
lemma decPrefix_eq_core (l : List Char) :
    decPrefix l = (parseDecCore l).map Prod.fst := by
  unfold decPrefix parseDecCore
  by_cases h : ((l.takeWhile isDig).isEmpty && (fracPart (l.dropWhile isDig)).isEmpty) = true <;>
    simp [h]

lemma fracRest_sublist (l₁ : List Char) : List.Sublist (fracRest l₁) l₁ := by
  unfold fracRest
  by_cases h : l₁.head? = some '.'
  · rw [if_pos h]
    exact (List.dropWhile_sublist isDig).trans (List.tail_sublist l₁)
  · rw [if_neg h]

lemma parseDecCore_rest_sublist {l rest : List Char} {m : ℚ}
    (h : parseDecCore l = some (m, rest)) : List.Sublist rest l := by
  unfold parseDecCore at h
  by_cases hcond : ((l.takeWhile isDig).isEmpty && (fracPart (l.dropWhile isDig)).isEmpty) = true
  · simp only [hcond, if_true] at h
    simp at h
  · rw [Bool.not_eq_true] at hcond
    simp only [hcond, Bool.false_eq_true, if_false, Option.some.injEq, Prod.mk.injEq] at h
    rw [← h.2]
    exact (fracRest_sublist _).trans (List.dropWhile_sublist isDig)

lemma parseExpPart_of_numDot {rest : List Char}
    (h : ∀ c ∈ rest, isNumDot c = true) : parseExpPart rest = 0 := by
  cases rest with
  | nil => rfl
  | cons c r =>
    have hc := isNumDot_ne (h c (List.mem_cons_self c r))
    simp [parseExpPart, hc.2.2.2.1, hc.2.2.2.2]

/-- On a nonempty token of digits and dots — the only shape the price regex
passes to it — `parseFloat` reduces to the decimal-prefix reading: the
whitespace skip, the sign, the `Infinity` case and the exponent are all
vacuous there. -/
lemma jsParseFloatL_numDot {l : List Char} (hne : l ≠ [])
    (hall : ∀ c ∈ l, isNumDot c = true) :
    jsParseFloatL l = decPrefix l := by
  obtain ⟨c, r, rfl⟩ : ∃ c r, l = c :: r := by
    cases l with
    | nil => exact absurd rfl hne
    | cons c r => exact ⟨c, r, rfl⟩
  have hc := hall c (List.mem_cons_self c r)
  have hws : isJsWs c = false := isNumDot_not_ws hc
  have hne' := isNumDot_ne hc
  have hdw : (c :: r).dropWhile isJsWs = c :: r := by
    rw [List.dropWhile_cons]
    simp [hws]
  have hss : stripSign (c :: r) = (1, c :: r) := by
    simp [stripSign, hne'.1, hne'.2.1]
  have htake : ¬(c :: r).take 8 = "Infinity".data := by
    intro hcontra
    have h8 : (c :: r).take 8 = c :: r.take 7 := rfl
    rw [h8] at hcontra
    simp only [show "Infinity".data = 'I' :: "nfinity".data from rfl,
      List.cons.injEq] at hcontra
    exact hne'.2.2.1 hcontra.1
  simp only [jsParseFloatL, hdw, hss]
  rw [if_neg htake, decPrefix_eq_core]
  cases hcore : parseDecCore (c :: r) with
  | none => rfl
  | some p =>
    obtain ⟨m, rest⟩ := p
    have hsub : List.Sublist rest (c :: r) := parseDecCore_rest_sublist hcore
    have hexp : parseExpPart rest = 0 :=
      parseExpPart_of_numDot fun x hx => hall x (hsub.subset hx)
    simp [hexp]

/-- Claim C1, refuted at a concrete input: the price parser as implemented
accepts `"1..2M"` — a token with two decimal points, which the claimed
strict grammar (digits and at most one decimal point) rejects — and returns
`round(parseFloat("1..2") * 1e6) = 1000000` instead of the claimed absent. -/
theorem C1_counterexample :
    parsePriceAED (.str "1..2M") = some 1000000 ∧
      specPriceStrict (.str "1..2M") = none := by
  constructor
  · simp +decide [parsePriceAED, upperL, trimL, jsUpper, isJsWs, isNumDot, isDig,
      jsParseFloatL, stripSign, parseDecCore, fracPart, fracRest, parseExpPart,
      digitsVal, jsRound]
    norm_num
  · simp +decide [specPriceStrict, upperL, trimL, jsUpper, isJsWs, isNumDot, isDig]

/-- Claim C1 (amended): for every input, the price parser returns
`round(n * 1_000_000)` (suffix `M`) or `round(n * 1_000)` (suffix `K`) when
the input is a string that, after trimming, is a nonempty run of digits and
decimal points — not necessarily at most one point — followed by optional
whitespace and the single suffix letter, case-insensitively, with nothing
else trailing; the token's value `n` is its longest decimal prefix as read
by `parseFloat`, and the parser returns absent when that prefix holds no
digit or for every other input (non-strings, the empty string, bare
numbers, bare suffixes; partial matches are never accepted). -/
theorem C1_amended : ∀ v, parsePriceAED v = specPriceAmended v := by
  intro v
  cases v with
  | str s =>
    by_cases hs : s = ""
    · subst hs
      simp +decide [parsePriceAED, specPriceAmended, upperL, trimL, isJsWs,
        isNumDot, isDig]
    · simp only [parsePriceAED, specPriceAmended, if_neg hs]
      by_cases he : ((upperL (trimL s.data)).takeWhile isNumDot).isEmpty = true
      · simp [he]
      · have hne : (upperL (trimL s.data)).takeWhile isNumDot ≠ [] := by
          simpa using he
        have hrw : jsParseFloatL ((upperL (trimL s.data)).takeWhile isNumDot) =
            decPrefix ((upperL (trimL s.data)).takeWhile isNumDot) :=
          jsParseFloatL_numDot hne fun c hc => List.mem_takeWhile_imp hc
        simp only [hrw]
  | undef => rfl
  | jsNull => rfl
  | bool b => rfl
  | num q => rfl
  | nan => rfl

/-- Claim C2, refuted at a concrete input: the completion-date parser as
implemented separates quarter and year with `\s+`, so `"Q3  2026"` (two
spaces) parses to `20263`, while the claim's single-space grammar makes
every such input absent. -/
theorem C2_counterexample :
    parseCompletionDateSortable (.str "Q3  2026") = some 20263 ∧
      specCompletionStrict (.str "Q3  2026") = none := by
  constructor <;> decide

/-- Claim C2 (amended): for every input, the completion-date parser returns
`year*10+quarter` when the input is a string that, after trimming, matches
`Q<1-4>` then one or more whitespace characters then a 4-digit year,
case-insensitively, and absent for every other input; and the encoding is
injective per (year, quarter) pair and orders later years and later
quarters higher. -/
theorem C2_amended :
    (∀ v, parseCompletionDateSortable v = specCompletionAmended v) ∧
    (∀ y q y' q' : ℕ, 1 ≤ q → q ≤ 4 → 1 ≤ q' → q' ≤ 4 →
      (((y : ℤ) * 10 + q = (y' : ℤ) * 10 + q') ↔ (y = y' ∧ q = q'))) ∧
    (∀ y q y' q' : ℕ, 1 ≤ q → q ≤ 4 → 1 ≤ q' → q' ≤ 4 →
      ((y < y' ∨ (y = y' ∧ q < q')) ↔ ((y : ℤ) * 10 + q < (y' : ℤ) * 10 + q'))) := by
  refine ⟨?_, ?_, ?_⟩
  · intro v
    cases v with
    | str s =>
      by_cases hs : s = ""
      · subst hs; rfl
      · simp only [parseCompletionDateSortable, specCompletionAmended, if_neg hs]
        cases upperL (trimL s.data) with
        | nil => rfl
        | cons c t =>
          cases t with
          | nil => rfl
          | cons q rest =>
            dsimp only
            by_cases hq : c = 'Q' ∧ isQDigit q = true
            · by_cases hw : (rest.takeWhile isJsWs).isEmpty = true
              · simp [hq, hw]
              · simp [hq, hw]
            · have hq' : ¬(c = 'Q' ∧ isQDigit q = true ∧
                  ¬(rest.takeWhile isJsWs).isEmpty = true) := by tauto
              rw [if_neg hq, if_neg hq']
    | undef => rfl
    | jsNull => rfl
    | bool b => rfl
    | num q => rfl
    | nan => rfl
  · intro y q y' q' h1 h2 h3 h4
    omega
  · intro y q y' q' h1 h2 h3 h4
    omega

/-- Witness for `C2_amended` at concrete inputs, discharging the range
hypotheses at `(2026, 3)` and `(2025, 1)`. -/
theorem C2_amended_witness :
    parseCompletionDateSortable (.str "q1 2025") = specCompletionAmended (.str "q1 2025") ∧
    (((2026 : ℤ) * 10 + (3 : ℕ) = (2025 : ℤ) * 10 + (1 : ℕ)) ↔ ((2026 : ℕ) = 2025 ∧ (3 : ℕ) = 1)) ∧
    (((2025 : ℕ) < 2026 ∨ ((2025 : ℕ) = 2026 ∧ (1 : ℕ) < 3)) ↔
      ((2025 : ℤ) * 10 + (1 : ℕ) < (2026 : ℤ) * 10 + (3 : ℕ))) :=
  ⟨C2_amended.1 (.str "q1 2025"),
   C2_amended.2.1 2026 3 2025 1 (by decide) (by decide) (by decide) (by decide),
   C2_amended.2.2 2025 1 2026 3 (by decide) (by decide) (by decide) (by decide)⟩

/-- Supporting analysis for claim C4: on the string-label record domain the
normalizer is total by construction, and `hasPin` is true iff both
coordinates parse to finite numbers; checked also at the empty object and
at wrong-typed coordinate fields.  (The totality half of the claim fails
on the full-primitive domain: see `C4_code_bug`.) -/
lemma normalizeProject_hasPin_iff :
    (∀ p : Raw, (normalizeProject p).hasPin = true ↔
      ((∃ x, toFloat p.latitude = some x) ∧ (∃ y, toFloat p.longitude = some y))) ∧
    (normalizeProject emptyRaw).hasPin = false ∧
    (normalizeProject
      { emptyRaw with latitude := .str "x", longitude := .bool true }).hasPin = false ∧
    (normalizeProject
      { emptyRaw with latitude := .str "25.1", longitude := .str " 55.2abc" }).hasPin = true := by
  refine ⟨?_, rfl, rfl, rfl⟩
  intro p
  simp [normalizeProject, isFiniteNum, Option.isSome_iff_exists]

/-- Claim C4 is right about the code's intent but the code violates it
(code bug): the normalizer is not total over wrong-typed fields.  At
`{unit_variations: [{unit_type: 1}, {unit_type: 2}]}` the two numeric
labels are truthy, survive `new Set` and `filter(Boolean)`, and `uniq`'s
sort comparator `(a, b) => a.localeCompare(b)` — which every conforming
engine must invoke for two distinct survivors — executes with a number as
receiver, so `normalizeProject` throws a `TypeError` where the claim (and
spec §3/§8) requires exactly one normalized listing and no exception.  On
the same record with string labels the pipeline succeeds and agrees with
the string-label model. -/
theorem C4_code_bug :
    normalizeProjectJs numericLabelsRawJs =
      .error "TypeError: localeCompare is not a function" ∧
    normalizeProjectJs stringLabelsRawJs =
      .ok (normalizeProject (RawJs.toRaw stringLabelsRawJs)) := by
  constructor
  · rfl
  · simp +decide [normalizeProjectJs, normalizeProject, summarizeUnitTypesJs,
      summarizeUnitTypes, uniqJs, uniq, dedupJsAux, dedupFirstAux, jsSort,
      List.mergeSort, List.merge, strCmp, charListCmp, jsToString, JsPrim.isStr,
      JsPrim.truthy, JsUnitVar.toUnitVar, RawJs.toRaw, computeMinPriceJs,
      computeMinPriceFromUnitVariations, isLikelyFeaturedJs, isLikelyFeatured,
      parsePriceAED, cleanUrl, salesStatusLabel, toFloat, isFiniteNum,
      stringLabelsRawJs, numericLabelsRawJs, emptyRaw]

lemma mem_dedupFirstAux : ∀ (l seen : List String) (x : String),
    x ∈ dedupFirstAux l seen → x ∈ l := by
  intro l
  induction l with
  | nil => intro seen x h; simp [dedupFirstAux] at h
  | cons a r ih =>
    intro seen x h
    unfold dedupFirstAux at h
    by_cases hseen : a ∈ seen
    · rw [if_pos hseen] at h
      exact List.mem_cons_of_mem a (ih seen x h)
    · rw [if_neg hseen] at h
      rcases List.mem_cons.mp h with h | h
      · exact h ▸ List.mem_cons_self a r
      · exact List.mem_cons_of_mem a (ih _ x h)

lemma filter_dedup_eq (L : List String) :
    (dedupFirstAux (L.filter (fun s => s != "")) []).filter (fun s => s != "") =
      dedupFirstAux (L.filter (fun s => s != "")) [] := by
  rw [List.filter_eq_self]
  intro a ha
  have h₁ : a ∈ L.filter (fun s => s != "") :=
    mem_dedupFirstAux (L.filter (fun s => s != "")) [] a ha
  exact (List.mem_filter.mp h₁).2

/-- Claim C6: `summarizeUnitTypes` computes exactly the claimed label, and
on five distinct types `["A","B","C","D","E"]` yields `"A • B • C • +2"`. -/
theorem C6_unit_types_label :
    (∀ uvs, summarizeUnitTypes uvs = specUnitTypesLabel uvs) ∧
    summarizeUnitTypes (some [{ unit_type := some "A" }, { unit_type := some "B" },
      { unit_type := some "C" }, { unit_type := some "D" }, { unit_type := some "E" }]) =
      "A • B • C • +2" := by
  constructor
  · intro uvs
    cases uvs with
    | none => rfl
    | some l =>
      cases l with
      | nil =>
        simp [summarizeUnitTypes, specUnitTypesLabel, dedupFirstAux, jsSort, List.mergeSort]
      | cons uv l' =>
        simp only [summarizeUnitTypes, specUnitTypesLabel, uniq]
        rw [filter_dedup_eq]
        simp [Nat.succ_ne_zero]
  · simp +decide [summarizeUnitTypes, uniq, dedupFirstAux, jsSort, List.mergeSort,
      List.merge, strCmp, charListCmp]

/-- Claim C7, refuted at a concrete input: a record with latitude `0` —
present in raw form, and even parseable — a non-empty image and one unit
variation is not marked featured by the code, because the heuristic tests
truthiness of the raw coordinates and the number 0 is falsy. -/
theorem C7_counterexample :
    (normalizeProject zeroLatRaw).featured = false ∧
      specFeaturedStrict zeroLatRaw = true := by
  constructor <;> decide

/-- Claim C7 (amended): for every raw record, the normalized `featured`
flag is true iff the record carries an explicit truthy `featured` flag, or
all three of — a non-empty image reference, both coordinates truthy in raw
form, and at least one unit variation — hold. -/
theorem C7_amended : ∀ p : Raw, (normalizeProject p).featured = specFeaturedAmended p := by
  intro p
  rfl

lemma char_eq_of_toNat_eq {a b : Char} (h : a.toNat = b.toNat) : a = b := by
  apply Char.ext
  apply UInt32.eq_of_toBitVec_eq
  exact BitVec.eq_of_toNat_eq h

lemma charListCmp_self : ∀ l, charListCmp l l = 0
  | [] => rfl
  | a :: as => by simp [charListCmp, charListCmp_self as]

lemma charListCmp_flip : ∀ a b, charListCmp b a = -charListCmp a b := by
  intro a
  induction a with
  | nil => intro b; cases b <;> simp [charListCmp]
  | cons x xs ih =>
    intro b
    cases b with
    | nil => simp [charListCmp]
    | cons y ys =>
      simp only [charListCmp]
      rcases Nat.lt_trichotomy x.toNat y.toNat with h | h | h
      · rw [if_neg (by omega), if_pos h, if_pos h]
        decide
      · rw [if_neg (by omega), if_neg (by omega), if_neg (by omega), if_neg (by omega)]
        exact ih ys
      · rw [if_pos h, if_neg (by omega), if_pos h]

lemma charListCmp_eq_zero : ∀ a b, charListCmp a b = 0 → a = b := by
  intro a
  induction a with
  | nil => intro b h; cases b with
    | nil => rfl
    | cons y ys => simp [charListCmp] at h
  | cons x xs ih =>
    intro b h
    cases b with
    | nil => simp [charListCmp] at h
    | cons y ys =>
      simp only [charListCmp] at h
      rcases Nat.lt_trichotomy x.toNat y.toNat with hx | hx | hx
      · rw [if_pos hx] at h; omega
      · rw [if_neg (by omega), if_neg (by omega)] at h
        rw [char_eq_of_toNat_eq hx, ih ys h]
      · rw [if_neg (by omega), if_pos hx] at h; omega

lemma charListCmp_lt_trans : ∀ a b c, charListCmp a b < 0 → charListCmp b c < 0 →
    charListCmp a c < 0 := by
  intro a
  induction a with
  | nil =>
    intro b c h1 h2
    cases b with
    | nil => simp [charListCmp] at h1
    | cons y ys =>
      cases c with
      | nil => simp [charListCmp] at h2
      | cons z zs => simp [charListCmp]
  | cons x xs ih =>
    intro b c h1 h2
    cases b with
    | nil => simp [charListCmp] at h1
    | cons y ys =>
      cases c with
      | nil => simp [charListCmp] at h2
      | cons z zs =>
        simp only [charListCmp] at h1 h2 ⊢
        by_cases hxy : x.toNat < y.toNat
        · by_cases hyz : y.toNat < z.toNat
          · rw [if_pos (show x.toNat < z.toNat by omega)]; omega
          · have hzy : ¬ z.toNat < y.toNat := by
              intro hzy
              rw [if_neg hyz, if_pos hzy] at h2; omega
            rw [if_pos (show x.toNat < z.toNat by omega)]; omega
        · have hyx : ¬ y.toNat < x.toNat := by
            intro hyx
            rw [if_neg hxy, if_pos hyx] at h1; omega
          rw [if_neg hxy, if_neg hyx] at h1
          by_cases hyz : y.toNat < z.toNat
          · rw [if_pos (show x.toNat < z.toNat by omega)]; omega
          · have hzy : ¬ z.toNat < y.toNat := by
              intro hzy
              rw [if_neg hyz, if_pos hzy] at h2; omega
            rw [if_neg hyz, if_neg hzy] at h2
            rw [if_neg (show ¬ x.toNat < z.toNat by omega),
              if_neg (show ¬ z.toNat < x.toNat by omega)]
            exact ih ys zs h1 h2

lemma jsOr_le_iff {x y : ℤ} : jsOr x y ≤ 0 ↔ (x < 0 ∨ (x = 0 ∧ y ≤ 0)) := by
  unfold jsOr; split <;> omega

lemma jsOr_lt_iff {x y : ℤ} : jsOr x y < 0 ↔ (x < 0 ∨ (x = 0 ∧ y < 0)) := by
  unfold jsOr; split <;> omega

lemma jsOr_eq_zero_iff {x y : ℤ} : jsOr x y = 0 ↔ (x = 0 ∧ y = 0) := by
  unfold jsOr; split <;> omega

lemma CmpLaws.leTrans {α : Type} {c : α → α → ℤ} (h : CmpLaws c) (a b d : α)
    (h1 : c a b ≤ 0) (h2 : c b d ≤ 0) : c a d ≤ 0 := by
  rcases lt_or_eq_of_le h1 with hlt | heq
  · exact le_of_lt (h.lt_le a b d hlt h2)
  · rcases lt_or_eq_of_le h2 with hlt2 | heq2
    · exact le_of_lt (h.le_lt a b d h1 hlt2)
    · exact le_of_eq (h.zero_trans a b d heq heq2)

lemma CmpLaws.totalLe {α : Type} {c : α → α → ℤ} (h : CmpLaws c) (a b : α) :
    c a b ≤ 0 ∨ c b a ≤ 0 := by
  by_cases hab : c a b ≤ 0
  · exact Or.inl hab
  · right
    rw [h.flip]
    omega

lemma CmpLaws.jsOrLaws {α : Type} {c t : α → α → ℤ} (hc : CmpLaws c) (ht : CmpLaws t) :
    CmpLaws (fun a b => jsOr (c a b) (t a b)) := by
  constructor
  · intro a b
    by_cases hz : c a b = 0
    · have hz' : c b a = 0 := by rw [hc.flip, hz]; ring
      simp [jsOr, hz, hz', ht.flip a b]
    · have hz' : ¬ c b a = 0 := by rw [hc.flip]; omega
      simp only [jsOr, if_neg hz, if_neg hz']
      exact hc.flip a b
  · intro a b d h1 h2
    rw [jsOr_lt_iff] at h1 ⊢
    rw [jsOr_le_iff] at h2
    rcases h1 with h1 | ⟨h1z, h1t⟩
    · rcases h2 with h2 | ⟨h2z, h2t⟩
      · exact Or.inl (hc.lt_le a b d h1 (le_of_lt h2))
      · exact Or.inl (hc.lt_le a b d h1 (le_of_eq h2z))
    · rcases h2 with h2 | ⟨h2z, h2t⟩
      · exact Or.inl (hc.le_lt a b d (le_of_eq h1z) h2)
      · exact Or.inr ⟨hc.zero_trans a b d h1z h2z, ht.lt_le a b d h1t h2t⟩
  · intro a b d h1 h2
    rw [jsOr_le_iff] at h1
    rw [jsOr_lt_iff] at h2 ⊢
    rcases h1 with h1 | ⟨h1z, h1t⟩
    · rcases h2 with h2 | ⟨h2z, h2t⟩
      · exact Or.inl (hc.lt_le a b d h1 (le_of_lt h2))
      · exact Or.inl (hc.lt_le a b d h1 (le_of_eq h2z))
    · rcases h2 with h2 | ⟨h2z, h2t⟩
      · exact Or.inl (hc.le_lt a b d (le_of_eq h1z) h2)
      · exact Or.inr ⟨hc.zero_trans a b d h1z h2z, ht.le_lt a b d h1t h2t⟩
  · intro a b d h1 h2
    rw [jsOr_eq_zero_iff] at h1 h2 ⊢
    exact ⟨hc.zero_trans a b d h1.1 h2.1, ht.zero_trans a b d h1.2 h2.2⟩

lemma CmpLaws.comap {α β : Type} {c : α → α → ℤ} (h : CmpLaws c) (f : β → α) :
    CmpLaws (fun x y => c (f x) (f y)) :=
  ⟨fun a b => h.flip (f a) (f b),
   fun a b d => h.lt_le (f a) (f b) (f d),
   fun a b d => h.le_lt (f a) (f b) (f d),
   fun a b d => h.zero_trans (f a) (f b) (f d)⟩

lemma nullsLastAsc_laws : CmpLaws nullsLastAsc := by
  constructor
  · intro a b
    cases a <;> cases b <;> simp [nullsLastAsc] <;> omega
  · intro a b d h1 h2
    cases a <;> cases b <;> cases d <;> simp_all [nullsLastAsc] <;> omega
  · intro a b d h1 h2
    cases a <;> cases b <;> cases d <;> simp_all [nullsLastAsc] <;> omega
  · intro a b d h1 h2
    cases a <;> cases b <;> cases d <;> simp_all [nullsLastAsc] <;> omega

lemma nullsLastDesc_laws : CmpLaws nullsLastDesc := by
  constructor
  · intro a b
    cases a <;> cases b <;> simp [nullsLastDesc] <;> omega
  · intro a b d h1 h2
    cases a <;> cases b <;> cases d <;> simp_all [nullsLastDesc] <;> omega
  · intro a b d h1 h2
    cases a <;> cases b <;> cases d <;> simp_all [nullsLastDesc] <;> omega
  · intro a b d h1 h2
    cases a <;> cases b <;> cases d <;> simp_all [nullsLastDesc] <;> omega

lemma charListCmp_laws : CmpLaws charListCmp := by
  constructor
  · exact charListCmp_flip
  · intro a b d h1 h2
    rcases lt_or_eq_of_le h2 with h2' | h2'
    · exact charListCmp_lt_trans a b d h1 h2'
    · have hbd : b = d := charListCmp_eq_zero b d h2'
      exact hbd ▸ h1
  · intro a b d h1 h2
    rcases lt_or_eq_of_le h1 with h1' | h1'
    · exact charListCmp_lt_trans a b d h1' h2
    · have hab : a = b := charListCmp_eq_zero a b h1'
      rw [hab]; exact h2
  · intro a b d h1 h2
    have hab : a = b := charListCmp_eq_zero a b h1
    have hbd : b = d := charListCmp_eq_zero b d h2
    rw [hab, hbd]
    exact charListCmp_self d

lemma strCmp_laws : CmpLaws strCmp := charListCmp_laws.comap String.data

/-- Sortedness of `jsSort` under a lawful comparator, transported to any
relation implied by `cmp a b ≤ 0`. -/
lemma pairwise_jsSort {α : Type} {cmp : α → α → ℤ} {R : α → α → Prop}
    (h : CmpLaws cmp) (himp : ∀ a b, cmp a b ≤ 0 → R a b) (l : List α) :
    (jsSort cmp l).Pairwise R := by
  have trans : ∀ (a b c : α), decide (cmp a b ≤ 0) = true → decide (cmp b c ≤ 0) = true →
      decide (cmp a c ≤ 0) = true := by
    intro a b c h1 h2
    exact decide_eq_true (h.leTrans a b c (of_decide_eq_true h1) (of_decide_eq_true h2))
  have total : ∀ (a b : α), (decide (cmp a b ≤ 0) || decide (cmp b a ≤ 0)) = true := by
    intro a b
    rcases h.totalLe a b with hh | hh <;> simp [hh]
  have hs := List.sorted_mergeSort trans total l
  exact hs.imp fun {a b} hab => himp a b (of_decide_eq_true hab)

lemma cmp_imp_ordered_asc (key : Listing → Option ℤ) : ∀ a b : Listing,
    jsOr (nullsLastAsc (key a) (key b)) (strCmp (titleKey a) (titleKey b)) ≤ 0 →
      nullsLastOrdered key true a b := by
  intro a b h
  rw [jsOr_le_iff] at h
  unfold nullsLastOrdered
  cases hka : key a with
  | none =>
    cases hkb : key b with
    | none =>
      rw [hka, hkb] at h
      simp only [nullsLastAsc] at h
      omega
    | some y =>
      rw [hka, hkb] at h
      simp [nullsLastAsc] at h
  | some x =>
    cases hkb : key b with
    | none => trivial
    | some y =>
      rw [hka, hkb] at h
      simp only [nullsLastAsc, if_true] at h ⊢
      rcases h with h | ⟨h1, h2⟩
      · exact Or.inl (by omega)
      · exact Or.inr ⟨by omega, h2⟩

lemma cmp_imp_ordered_desc (key : Listing → Option ℤ) : ∀ a b : Listing,
    jsOr (nullsLastDesc (key a) (key b)) (strCmp (titleKey a) (titleKey b)) ≤ 0 →
      nullsLastOrdered key false a b := by
  intro a b h
  rw [jsOr_le_iff] at h
  unfold nullsLastOrdered
  cases hka : key a with
  | none =>
    cases hkb : key b with
    | none =>
      rw [hka, hkb] at h
      simp only [nullsLastDesc] at h
      omega
    | some y =>
      rw [hka, hkb] at h
      simp [nullsLastDesc] at h
  | some x =>
    cases hkb : key b with
    | none => trivial
    | some y =>
      rw [hka, hkb] at h
      simp only [nullsLastDesc, if_false, Bool.false_eq_true] at h ⊢
      rcases h with h | ⟨h1, h2⟩
      · exact Or.inl (by omega)
      · exact Or.inr ⟨by omega, h2⟩

/-- Claim C3: sorting any list of listings under `price_asc`/`price_desc`
puts every null-`minPrice` listing after every non-null one regardless of
direction, orders non-null prices ascending/descending with
case-insensitive-title tie-breaks, and the same holds for
`completion_asc`/`completion_desc` over the parsed completion key. -/
theorem C3_sort_nulls_last (l : List Listing) :
    ((jsSort (fun a b => sortProjects a b "price_asc") l).Pairwise
      (nullsLastOrdered (fun p => p.minPrice) true)) ∧
    ((jsSort (fun a b => sortProjects a b "price_desc") l).Pairwise
      (nullsLastOrdered (fun p => p.minPrice) false)) ∧
    ((jsSort (fun a b => sortProjects a b "completion_asc") l).Pairwise
      (nullsLastOrdered completionKey true)) ∧
    ((jsSort (fun a b => sortProjects a b "completion_desc") l).Pairwise
      (nullsLastOrdered completionKey false)) := by
  refine ⟨?_, ?_, ?_, ?_⟩
  · have hfn : (fun a b : Listing => sortProjects a b "price_asc") =
        fun a b => jsOr (nullsLastAsc (a.minPrice) (b.minPrice))
          (strCmp (titleKey a) (titleKey b)) := rfl
    rw [hfn]
    exact pairwise_jsSort
      ((nullsLastAsc_laws.comap fun p : Listing => p.minPrice).jsOrLaws
        (strCmp_laws.comap titleKey))
      (cmp_imp_ordered_asc fun p => p.minPrice) l
  · have hfn : (fun a b : Listing => sortProjects a b "price_desc") =
        fun a b => jsOr (nullsLastDesc (a.minPrice) (b.minPrice))
          (strCmp (titleKey a) (titleKey b)) := rfl
    rw [hfn]
    exact pairwise_jsSort
      ((nullsLastDesc_laws.comap fun p : Listing => p.minPrice).jsOrLaws
        (strCmp_laws.comap titleKey))
      (cmp_imp_ordered_desc fun p => p.minPrice) l
  · have hfn : (fun a b : Listing => sortProjects a b "completion_asc") =
        fun a b => jsOr (nullsLastAsc (completionKey a) (completionKey b))
          (strCmp (titleKey a) (titleKey b)) := rfl
    rw [hfn]
    exact pairwise_jsSort
      ((nullsLastAsc_laws.comap completionKey).jsOrLaws (strCmp_laws.comap titleKey))
      (cmp_imp_ordered_asc completionKey) l
  · have hfn : (fun a b : Listing => sortProjects a b "completion_desc") =
        fun a b => jsOr (nullsLastDesc (completionKey a) (completionKey b))
          (strCmp (titleKey a) (titleKey b)) := rfl
    rw [hfn]
    exact pairwise_jsSort
      ((nullsLastDesc_laws.comap completionKey).jsOrLaws (strCmp_laws.comap titleKey))
      (cmp_imp_ordered_desc completionKey) l

lemma passesFilter_eq_claim (f : FilterSpec) (p : Listing) :
    passesFilter f p = claimPassesAmended f p := by
  simp only [passesFilter, claimPassesAmended, bne]
  generalize (f.community == "") = c1
  generalize (p.community == f.community) = c2
  generalize (f.developer == "") = d1
  generalize (p.developer == f.developer) = d2
  generalize (f.status == "") = s1
  generalize (p.statusLabel == f.status) = s2
  generalize (strIncludes (lowerS (hayOf p)) (lowerS (trimS f.q))) = inc
  by_cases hq : lowerS (trimS f.q) = ""
  · simp only [hq]
    revert c1 c2 d1 d2 s1 s2 inc
    decide
  · have hq' : (lowerS (trimS f.q) == "") = false := by simpa using hq
    simp only [hq']
    revert c1 c2 d1 d2 s1 s2 inc
    decide

/-- Claim C5, refuted at a concrete input: for the normalized record
`{name: "A B"}` (empty community/developer/completionDate, statusLabel
`"Unknown"`) and the query `"B unknown"`, the code's haystack is
`"A B Unknown"` and the listing passes, but the claim's haystack
`"A B   Unknown "` keeps the empty fields' separators, does not contain
`"b unknown"`, and excludes it. -/
theorem C5_counterexample :
    filteredListings { q := "B unknown" } "name_asc"
        [normalizeProject { name := some "A B" }] =
      [normalizeProject { name := some "A B" }] ∧
    claimPassesStrict { q := "B unknown" } (normalizeProject { name := some "A B" }) = false := by
  constructor
  · simp +decide [filteredListings, jsSort, List.mergeSort, passesFilter, hayOf,
      normalizeProject, salesStatusLabel, jsToString, summarizeUnitTypes,
      computeMinPriceFromUnitVariations, cleanUrl, toFloat, isFiniteNum, lowerS, trimS,
      trimL, jsLower, isJsWs, strIncludes, includesAux]
  · decide

/-- Claim C5 (amended): a listing is in the filtered output iff it is in
the catalog and satisfies the conjunction of the provided exact-match
constraints and, for a non-empty trimmed query, case-insensitive substring
membership in the space-joined concatenation of its non-empty fields. -/
theorem C5_amended : ∀ (f : FilterSpec) (sortBy : String) (all : List Listing) (p : Listing),
    p ∈ filteredListings f sortBy all ↔ (p ∈ all ∧ claimPassesAmended f p = true) := by
  intro f sortBy all p
  unfold filteredListings jsSort
  rw [List.mem_mergeSort, List.mem_filter, passesFilter_eq_claim]

/-- Witness for `C5_amended` at a concrete filter, sort key, catalog and
listing. -/
theorem C5_witness :
    normalizeProject { name := some "A B" } ∈
        filteredListings { q := "B unknown" } "name_asc" [normalizeProject { name := some "A B" }] ↔
      (normalizeProject { name := some "A B" } ∈ [normalizeProject { name := some "A B" }] ∧
        claimPassesAmended { q := "B unknown" } (normalizeProject { name := some "A B" }) = true) :=
  C5_amended { q := "B unknown" } "name_asc" [normalizeProject { name := some "A B" }]
    (normalizeProject { name := some "A B" })

/-- Claim C8, refuted at a concrete input: a geolocated listing at
(52, 0) is among the first N geolocated listings but the map never plots
it, because an additional Middle-East bounding-box filter runs before the
cap. -/
theorem C8_counterexample :
    claimMapPins [londonListing] = [londonListing] ∧ mapPins [londonListing] = [] := by
  constructor
  · decide
  · norm_num [mapPins, londonListing, normalizeProject, toFloat, isFiniteNum,
      isInMiddleEastBBox, MIDDLE_EAST_BBOX, MAX_MARKERS]

/-- Claim C8 (amended): the map renders at most the fixed `MAX_MARKERS`
ceiling of pins for every input, and the pins are exactly the first
`min(MAX_MARKERS, ·)` listings that are geolocated *and inside the
Middle-East bounding box*, in the given sorted order. -/
theorem C8_amended :
    (∀ l : List Listing, mapPins l =
      (l.filter fun p => (isFiniteNum p.lat && isFiniteNum p.lng) &&
        (match p.lat, p.lng with
         | some la, some ln => isInMiddleEastBBox la ln
         | _, _ => false)).take MAX_MARKERS) ∧
    (∀ l : List Listing, (mapPins l).length ≤ MAX_MARKERS) := by
  constructor
  · intro l
    unfold mapPins
    rw [List.filter_filter]
    congr 1
    apply List.filter_congr
    intro p _
    rw [Bool.and_comm]
  · intro l
    unfold mapPins
    exact List.length_take_le _ _

/-- Claim C10: a pin is rendered only for listings whose coordinates lie
inside the hard-coded Middle-East bounding box — latitude in [12, 36.5]
and longitude in [34, 64], inclusive; every geolocated listing outside it
is never plotted, for any input list (hence regardless of filters, sort,
or the marker cap). -/
theorem C10_bbox_only (l : List Listing) (p : Listing) (hp : p ∈ mapPins l) :
    ∃ la ln, p.lat = some la ∧ p.lng = some ln ∧
      12 ≤ la ∧ la ≤ 36.5 ∧ 34 ≤ ln ∧ ln ≤ 64 := by
  unfold mapPins at hp
  have hp2 := List.mem_of_mem_take hp
  rw [List.mem_filter] at hp2
  obtain ⟨hp3, hbbox⟩ := hp2
  rw [List.mem_filter] at hp3
  obtain ⟨_, hfin⟩ := hp3
  cases hla : p.lat with
  | none =>
    rw [hla] at hfin
    simp [isFiniteNum] at hfin
  | some la =>
    cases hln : p.lng with
    | none =>
      rw [hln] at hfin
      simp [isFiniteNum] at hfin
    | some ln =>
      refine ⟨la, ln, rfl, rfl, ?_⟩
      rw [hla, hln] at hbbox
      simp only [isInMiddleEastBBox, MIDDLE_EAST_BBOX, Bool.and_eq_true,
        decide_eq_true_eq] at hbbox
      exact ⟨hbbox.1.1.1, hbbox.1.1.2, hbbox.1.2, hbbox.2⟩

/-- Witness for `C10_bbox_only`: the Dubai listing is rendered (it is a
member of its own pin list) and its coordinates satisfy the box bounds. -/
theorem C10_witness :
    ∃ la ln, dubaiListing.lat = some la ∧ dubaiListing.lng = some ln ∧
      12 ≤ la ∧ la ≤ 36.5 ∧ 34 ≤ ln ∧ ln ≤ 64 :=
  C10_bbox_only [dubaiListing] dubaiListing (by
    norm_num [mapPins, dubaiListing, normalizeProject, toFloat, isFiniteNum,
      isInMiddleEastBBox, MIDDLE_EAST_BBOX, MAX_MARKERS])

lemma append_ne_empty_left (pre s : String) (h : pre.data ≠ []) : pre ++ s ≠ "" := by
  intro hcontra
  have h2 : (pre ++ s).data = ("" : String).data := congrArg String.data hcontra
  rw [String.data_append] at h2
  exact h (List.append_eq_nil.mp h2).1

/-- Claim C9: every load failure — non-success transport status, non-JSON
body, or `data.projects` missing/not an array — sets a non-empty
user-visible error message carrying the failure's status/message, commits
no listings, and preserves the previously loaded catalog unchanged; a
successful load commits exactly the normalized records and resets the
error state to empty. -/
theorem C9_load_error_state :
    (∀ st status, (loadStep st (.httpError status)).all = st.all ∧
      (loadStep st (.httpError status)).loadError =
        "Could not load properties.json (HTTP " ++ toString status ++ ")" ∧
      (loadStep st (.httpError status)).loadError ≠ "") ∧
    (∀ st msg, (loadStep st (.jsonError msg)).all = st.all ∧
      (loadStep st (.jsonError msg)).loadError =
        "Could not load properties.json (" ++ msg ++ ")" ∧
      (loadStep st (.jsonError msg)).loadError ≠ "") ∧
    (∀ st, (loadStep st (.jsonOk ⟨none⟩)).all = st.all ∧
      (loadStep st (.jsonOk ⟨none⟩)).loadError ≠ "") ∧
    (∀ st projects, (loadStep st (.jsonOk ⟨some projects⟩)).all =
        projects.map normalizeProject ∧
      (loadStep st (.jsonOk ⟨some projects⟩)).loadError = "") := by
  refine ⟨?_, ?_, ?_, ?_⟩
  · intro st status
    refine ⟨rfl, rfl, ?_⟩
    show "Could not load properties.json (HTTP " ++ toString status ++ ")" ≠ ""
    rw [String.append_assoc]
    exact append_ne_empty_left _ _ (by decide)
  · intro st msg
    refine ⟨rfl, rfl, ?_⟩
    show "Could not load properties.json (" ++ (msg ++ ")") ≠ ""
    exact append_ne_empty_left _ _ (by decide)
  · intro st
    exact ⟨rfl, append_ne_empty_left "Could not load properties.json (Invalid JSON: data.projects is missing or not an array)" "" (by decide)⟩
  · intro st projects
    exact ⟨rfl, rfl⟩

/-- Witness for `C9_load_error_state` at a concrete state and failure. -/
theorem C9_witness :
    (loadStep ⟨[dubaiListing], ""⟩ (.httpError 404)).all = [dubaiListing] ∧
      (loadStep ⟨[dubaiListing], ""⟩ (.httpError 404)).loadError =
        "Could not load properties.json (HTTP " ++ toString (404 : ℕ) ++ ")" ∧
      (loadStep ⟨[dubaiListing], ""⟩ (.httpError 404)).loadError ≠ "" :=
  C9_load_error_state.1 ⟨[dubaiListing], ""⟩ 404

end GWProperty
